import Mathlib

/-!
Box-Packer: verification of the arrangement search core.

A shallow embedding of the Box-Packer repository's core algorithms
(`utils/geometry.py`, `algorithms/arrangement.py`, `algorithms/scaling.py`,
`algorithms/optimization.py`, `models/box.py`, `models/pallet.py`) in Lean 4,
together with theorems settling the specification claims about them.

Conventions of the embedding:
* Python floats are modelled as exact rationals (`ℚ`); `float('inf')` for the
  best-score registers is modelled by `Option`/`WithTop ℚ` as noted inline.
* An orientation grid (`List[List[str]]` of `'N'`/`'R'`/`'O'`) is
  `List (List Cell)`, row major, exactly as in Python.
* Methods that read but never write their object are embedded as pure
  functions; where a claim is about the absence of mutation, an explicit
  state-passing version (returning the post-call state) is used.
* Python `None` results become `Option.none`; a `raise` of `ValueError`
  at the end of a search is also `Option.none` (the function produces no
  value), as noted at each definition.
-/

set_option maxRecDepth 4000

namespace BoxPacker

/-- A grid cell: `'N'` (normal), `'R'` (rotated) or `'O'` (gap), from the
orientation-grid representation used throughout the repository. -/
inductive Cell where
  | N : Cell
  | R : Cell
  | O : Cell
deriving DecidableEq, Repr

/-- From `models/box.py`: a box is a width/length pair (floats in Python,
rationals here).  The constructor-time swap normalisation is not needed by
the claims and is not modelled; claims that rely on the data-model invariant
take `width ≤ length` or positivity as an explicit hypothesis. -/
structure Box where
  width : ℚ
  length : ℚ
deriving DecidableEq, Repr

/-- From `models/box.py`: `Box.area = self.width * self.length`. -/
def Box.area (b : Box) : ℚ := b.width * b.length

/-- From `models/pallet.py`: a pallet is a width/length pair. -/
structure Pallet where
  width : ℚ
  length : ℚ
deriving DecidableEq, Repr

/-- From `config.py`: `PALLET_WIDTH = 40.0`. -/
def PALLET_WIDTH : ℚ := 40

/-- From `config.py`: `PALLET_LENGTH = 48.0`. -/
def PALLET_LENGTH : ℚ := 48

/-- From `config.py`: `TARGET_RATIO = 6.0 / 5.0`. -/
def TARGET_RATIO : ℚ := 6 / 5

/-- The expression `Pallet()` with default arguments: the standard 40 × 48 pallet. -/
def standardPallet : Pallet := ⟨PALLET_WIDTH, PALLET_LENGTH⟩

/-- From `models/pallet.py`: `Pallet.area = self.width * self.length`. -/
def Pallet.area (p : Pallet) : ℚ := p.width * p.length

/-- From `models/pallet.py`: `scale` builds a fresh `Pallet(self.width * factor,
self.length * factor)` from the two field reads; the method body contains no
assignment to `self`. -/
def Pallet.scale (p : Pallet) (factor : ℚ) : Pallet :=
  ⟨p.width * factor, p.length * factor⟩

/-- State-passing rendition of the `scale` method call used for the
frame/effect claim: the call returns the constructed pallet together with the
post-call state of the receiver, which is just the receiver (the body of
`scale` only reads `self.width` and `self.length`). -/
def Pallet.scaleCall (p : Pallet) (factor : ℚ) : Pallet × Pallet :=
  (p.scale factor, p)

/-! Section: `utils/geometry.py` -/

/-- A grid is a row-major list of rows of cells, as the Python
`List[List[str]]`. -/
abbrev Grid := List (List Cell)

/-- The Python loops index `arrangement[r][c]` for `r < len(arrangement)` and
`c < len(arrangement[0])`; they are well defined exactly on rectangular
grids.  `Rect g` states every row has the length of the first row. -/
def Rect (g : Grid) : Prop := ∀ row ∈ g, row.length = (g.headD []).length

instance (g : Grid) : Decidable (Rect g) := by
  unfold Rect; infer_instance

/-- Python `columns = len(arrangement[0])` (with `0` for an empty grid). -/
def columnsOf (g : Grid) : ℕ := (g.headD []).length

/-- The cells of column `c`, top to bottom: `arrangement[r][c]` for each row
`r` (out-of-range reads default to a gap; on rectangular grids and `c` below
the column count no default is ever taken). -/
def columnCells (g : Grid) (c : ℕ) : List Cell :=
  g.map (fun row => row.getD c Cell.O)

/-- The inner loop of `calculate_arrangement_area` /
`arrangement_fits_in_pallet`, accumulating `(col_width, col_height)` from
`(0.0, 0.0)` over the cells of one column:
`'N'` contributes `max` with `box.width` and adds `box.length`;
`'R'` contributes `max` with `box.length` and adds `box.width`;
`'O'` contributes nothing. -/
def colDims (box : Box) (cells : List Cell) : ℚ × ℚ :=
  cells.foldl
    (fun wh cell =>
      match cell with
      | Cell.N => (max wh.1 box.width, wh.2 + box.length)
      | Cell.R => (max wh.1 box.length, wh.2 + box.width)
      | Cell.O => wh)
    (0, 0)

/-- The list `column_widths` of the code: per-column `col_width`. -/
def columnWidths (g : Grid) (box : Box) : List ℚ :=
  (List.range (columnsOf g)).map (fun c => (colDims box (columnCells g c)).1)

/-- The list `column_heights` of the code: per-column `col_height`. -/
def columnHeights (g : Grid) (box : Box) : List ℚ :=
  (List.range (columnsOf g)).map (fun c => (colDims box (columnCells g c)).2)

/-- Python's `max(l)` on a nonempty list (fold of `max` from the head),
with the code's `if column_heights else 0` guard giving `0` on `[]`. -/
def pyMaxOr0 (l : List ℚ) : ℚ :=
  match l with
  | [] => 0
  | h :: t => t.foldl max h

/-- Python `total_width = sum(column_widths)`. -/
def totalWidth (g : Grid) (box : Box) : ℚ := (columnWidths g box).sum

/-- Python `total_height = max(column_heights) if column_heights else 0`. -/
def totalHeight (g : Grid) (box : Box) : ℚ := pyMaxOr0 (columnHeights g box)

/-- The degenerate-grid guard `not arrangement or not arrangement[0]`. -/
def degenerate (g : Grid) : Bool := g.isEmpty || (g.headD []).isEmpty

/-- From `utils/geometry.py`, `calculate_arrangement_area`: `0.0` on a degenerate
grid, else `total_width * total_height`. -/
def calculate_arrangement_area (g : Grid) (box : Box) : ℚ :=
  if degenerate g then 0 else totalWidth g box * totalHeight g box

/-- From `utils/geometry.py`, `arrangement_fits_in_pallet`: `True` on a degenerate
grid, else `total_width <= pallet.width and total_height <= pallet.length`. -/
def arrangement_fits_in_pallet (g : Grid) (box : Box) (pallet : Pallet) : Bool :=
  if degenerate g then true
  else decide (totalWidth g box ≤ pallet.width) &&
       decide (totalHeight g box ≤ pallet.length)

/-- State-passing rendition of a call to `arrangement_fits_in_pallet` for the
purity claim: the body of the Python function only reads the grid, the box
and the pallet (it builds fresh local lists), so the post-call state of the
three arguments is the pre-call state. -/
def fitsCall (g : Grid) (box : Box) (pallet : Pallet) :
    Bool × (Grid × Box × Pallet) :=
  (arrangement_fits_in_pallet g box pallet, (g, box, pallet))

/-- From `utils/geometry.py`, `ratio_score`: `float('inf')` when `columns == 0`
(modelled as `⊤` in `WithTop ℚ`), else `abs(rows/columns - TARGET_RATIO)`. -/
def ratio_score (rows columns : ℤ) : WithTop ℚ :=
  if columns = 0 then ⊤
  else ((|((rows : ℚ) / (columns : ℚ)) - TARGET_RATIO| : ℚ) : WithTop ℚ)

/-! Section: Spec-side formulations of the footprint (taken from the words of the
specification, for comparison with the code translation above): a column's
width is the max over its cells of (`box.width` for Normal, `box.length` for
Rotated, `0` for Gap), its height is the sum over its cells of (`box.length`
for Normal, `box.width` for Rotated, `0` for Gap); the footprint width is the
sum of the column widths and the footprint height the max of the column
heights. -/

/-- Horizontal extent a cell demands, per the spec's words. -/
def cellW (box : Box) : Cell → ℚ
  | Cell.N => box.width
  | Cell.R => box.length
  | Cell.O => 0

/-- Vertical extent a cell contributes, per the spec's words. -/
def cellH (box : Box) : Cell → ℚ
  | Cell.N => box.length
  | Cell.R => box.width
  | Cell.O => 0

/-- Spec-side column width: max over the cells' horizontal demands. -/
def specColWidth (box : Box) (cells : List Cell) : ℚ :=
  (cells.map (cellW box)).foldr max 0

/-- Spec-side column height: sum of the cells' vertical contributions. -/
def specColHeight (box : Box) (cells : List Cell) : ℚ :=
  (cells.map (cellH box)).sum

/-- Spec-side footprint width: sum over columns of the column width. -/
def specTotalWidth (g : Grid) (box : Box) : ℚ :=
  ((List.range (columnsOf g)).map (fun c => specColWidth box (columnCells g c))).sum

/-- Spec-side footprint height: max over columns of the column height. -/
def specTotalHeight (g : Grid) (box : Box) : ℚ :=
  ((List.range (columnsOf g)).map (fun c => specColHeight box (columnCells g c))).foldr max 0

/-! Subsection: Bridging lemmas between the code's fold and the spec's max/sum -/

lemma foldr_max_nonneg (l : List ℚ) : 0 ≤ l.foldr max 0 := by
  induction l with
  | nil => simp
  | cons h t ih => simpa using Or.inr ih

lemma specColWidth_nonneg (box : Box) (cells : List Cell) :
    0 ≤ specColWidth box cells := foldr_max_nonneg _

lemma colDims_go (box : Box) :
    ∀ (cells : List Cell) (w0 h0 : ℚ), 0 ≤ w0 →
      cells.foldl
        (fun wh cell =>
          match cell with
          | Cell.N => (max wh.1 box.width, wh.2 + box.length)
          | Cell.R => (max wh.1 box.length, wh.2 + box.width)
          | Cell.O => wh)
        (w0, h0) =
        (max w0 (specColWidth box cells), h0 + specColHeight box cells) := by
  intro cells
  induction cells with
  | nil =>
    intro w0 h0 hw0
    simp [specColWidth, specColHeight, max_eq_left hw0]
  | cons c t ih =>
    intro w0 h0 hw0
    cases c with
    | N =>
      simp only [List.foldl_cons]
      rw [ih (max w0 box.width) (h0 + box.length) (le_trans hw0 (le_max_left _ _))]
      simp [specColWidth, specColHeight, cellW, cellH, max_assoc, add_assoc]
    | R =>
      simp only [List.foldl_cons]
      rw [ih (max w0 box.length) (h0 + box.width) (le_trans hw0 (le_max_left _ _))]
      simp [specColWidth, specColHeight, cellW, cellH, max_assoc, add_assoc]
    | O =>
      simp only [List.foldl_cons]
      rw [ih w0 h0 hw0]
      have h0le : max (0 : ℚ) ((t.map (cellW box)).foldr max 0) =
          (t.map (cellW box)).foldr max 0 := max_eq_right (foldr_max_nonneg _)
      simp [specColWidth, specColHeight, cellW, cellH, h0le]

lemma colDims_eq (box : Box) (cells : List Cell) :
    colDims box cells = (specColWidth box cells, specColHeight box cells) := by
  unfold colDims
  rw [colDims_go box cells 0 0 le_rfl]
  simp [max_eq_right (specColWidth_nonneg box cells)]

lemma totalWidth_eq (g : Grid) (box : Box) :
    totalWidth g box = specTotalWidth g box := by
  unfold totalWidth columnWidths specTotalWidth
  congr 1
  apply List.map_congr_left
  intro c _
  rw [colDims_eq]

lemma foldl_max_eq (l : List ℚ) :
    ∀ a : ℚ, 0 ≤ a → l.foldl max a = max a (l.foldr max 0) := by
  induction l with
  | nil => intro a ha; simpa using (max_eq_left ha).symm
  | cons h t ih =>
    intro a ha
    simp only [List.foldl_cons, List.foldr_cons]
    rw [ih (max a h) (le_trans ha (le_max_left _ _)), max_assoc]

lemma pyMaxOr0_eq (l : List ℚ) (hl : ∀ x ∈ l, 0 ≤ x) :
    pyMaxOr0 l = l.foldr max 0 := by
  cases l with
  | nil => rfl
  | cons h t =>
    have hh : 0 ≤ h := hl h (List.mem_cons_self _ _)
    simp only [pyMaxOr0, List.foldr_cons]
    exact foldl_max_eq t h hh

lemma specColHeight_nonneg (box : Box) (hw : 0 ≤ box.width) (hl : 0 ≤ box.length)
    (cells : List Cell) : 0 ≤ specColHeight box cells := by
  apply List.sum_nonneg
  intro x hx
  rcases List.mem_map.1 hx with ⟨c, _, rfl⟩
  cases c <;> simp [cellH, hw, hl]

lemma totalHeight_eq (g : Grid) (box : Box) (hw : 0 ≤ box.width)
    (hl : 0 ≤ box.length) : totalHeight g box = specTotalHeight g box := by
  unfold totalHeight columnHeights specTotalHeight
  have hmap : (List.range (columnsOf g)).map
      (fun c => (colDims box (columnCells g c)).2) =
      (List.range (columnsOf g)).map (fun c => specColHeight box (columnCells g c)) := by
    apply List.map_congr_left
    intro c _
    rw [colDims_eq]
  rw [hmap]
  apply pyMaxOr0_eq
  intro x hx
  rcases List.mem_map.1 hx with ⟨c, _, rfl⟩
  exact specColHeight_nonneg box hw hl _

/-! Section: Claim theorems: geometry -/

/-- Claim C1: `arrangement_fits_in_pallet` returns `true` iff the sum of the
column widths fits the pallet width and the max of the column heights fits
the pallet length (column width/height as the spec defines them), a
degenerate grid trivially fits, and `calculate_arrangement_area` is the
product of that total width and total height. -/
theorem fits_iff_footprint_le (g : Grid) (box : Box) (p : Pallet)
    (hrect : Rect g) (hw : 0 ≤ box.width) (hl : 0 ≤ box.length) :
    (arrangement_fits_in_pallet g box p = true ↔
      (degenerate g = true ∨
        (specTotalWidth g box ≤ p.width ∧ specTotalHeight g box ≤ p.length)))
    ∧ calculate_arrangement_area g box = specTotalWidth g box * specTotalHeight g box := by
  constructor
  · unfold arrangement_fits_in_pallet
    by_cases hd : degenerate g = true
    · simp [hd]
    · simp only [hd, Bool.false_eq_true, false_or, if_neg hd]
      rw [totalWidth_eq, totalHeight_eq g box hw hl]
      simp
  · unfold calculate_arrangement_area
    by_cases hd : degenerate g = true
    · have hcols : columnsOf g = 0 := by
        unfold degenerate at hd
        unfold columnsOf
        cases g with
        | nil => rfl
        | cons r t =>
          simp only [List.isEmpty_cons, Bool.false_or, List.headD_cons] at hd ⊢
          exact List.isEmpty_iff_length_eq_zero.1 hd
      rw [if_pos hd]
      unfold specTotalWidth
      rw [hcols]
      simp
    · rw [if_neg hd, totalWidth_eq, totalHeight_eq g box hw hl]

/-- Witness for **C1** at a concrete rectangular grid, box and pallet. -/
theorem fits_iff_footprint_le_witness :
    (arrangement_fits_in_pallet [[Cell.N, Cell.R], [Cell.O, Cell.N]]
        ⟨2, 3⟩ ⟨10, 10⟩ = true ↔
      (degenerate [[Cell.N, Cell.R], [Cell.O, Cell.N]] = true ∨
        (specTotalWidth [[Cell.N, Cell.R], [Cell.O, Cell.N]] ⟨2, 3⟩ ≤ (10 : ℚ) ∧
         specTotalHeight [[Cell.N, Cell.R], [Cell.O, Cell.N]] ⟨2, 3⟩ ≤ (10 : ℚ))))
    ∧ calculate_arrangement_area [[Cell.N, Cell.R], [Cell.O, Cell.N]] ⟨2, 3⟩ =
        specTotalWidth [[Cell.N, Cell.R], [Cell.O, Cell.N]] ⟨2, 3⟩ *
        specTotalHeight [[Cell.N, Cell.R], [Cell.O, Cell.N]] ⟨2, 3⟩ :=
  fits_iff_footprint_le [[Cell.N, Cell.R], [Cell.O, Cell.N]] ⟨2, 3⟩ ⟨10, 10⟩
    (by decide) (by norm_num) (by norm_num)

/-- Claim C5: `ratio_score` is `|rows/columns − 6/5|` for nonzero column count,
`+∞` for zero columns, vanishes exactly when `rows/columns` is the target
ratio, and is monotone in the deviation `|rows/columns − 6/5|`. -/
theorem ratio_score_spec (r c : ℤ) :
    (c = 0 → ratio_score r c = ⊤) ∧
    (c ≠ 0 → ratio_score r c =
      ((|((r : ℚ) / (c : ℚ)) - 6 / 5| : ℚ) : WithTop ℚ)) ∧
    (ratio_score r c = ((0 : ℚ) : WithTop ℚ) ↔
      c ≠ 0 ∧ (r : ℚ) / (c : ℚ) = 6 / 5) ∧
    (∀ r' c' : ℤ, c ≠ 0 → c' ≠ 0 →
      (ratio_score r c ≤ ratio_score r' c' ↔
        |((r : ℚ) / (c : ℚ)) - 6 / 5| ≤ |((r' : ℚ) / (c' : ℚ)) - 6 / 5|)) := by
  refine ⟨fun hc => by simp [ratio_score, hc], fun hc => by
    simp [ratio_score, hc, TARGET_RATIO], ?_, ?_⟩
  · constructor
    · intro h
      by_cases hc : c = 0
      · simp [ratio_score, hc] at h
      · refine ⟨hc, ?_⟩
        simp only [ratio_score, if_neg hc, TARGET_RATIO] at h
        have h2 : |((r : ℚ) / (c : ℚ)) - 6 / 5| = 0 := by exact_mod_cast h
        have h3 := abs_eq_zero.1 h2
        linarith
    · rintro ⟨hc, hr⟩
      simp [ratio_score, hc, TARGET_RATIO, hr]
  · intro r' c' hc hc'
    simp only [ratio_score, if_neg hc, if_neg hc', TARGET_RATIO]
    exact_mod_cast WithTop.coe_le_coe

/-- Witness for **C5**: the zero-column and on-target cases at concrete
integers. -/
theorem ratio_score_spec_witness :
    ratio_score 1 0 = ⊤ ∧ ratio_score 6 5 = ((0 : ℚ) : WithTop ℚ) :=
  ⟨(ratio_score_spec 1 0).1 rfl,
   ((ratio_score_spec 6 5).2.2.1).2 ⟨by decide, by norm_num⟩⟩

/-- Claim C8: `Pallet.scale` returns a new pallet whose dimensions are the
original's multiplied by the factor, and the call leaves the receiver's
state unchanged (the method performs no assignment). -/
theorem pallet_scale_spec (p : Pallet) (f : ℚ) :
    (p.scaleCall f).1.width = p.width * f ∧
    (p.scaleCall f).1.length = p.length * f ∧
    (p.scaleCall f).2 = p :=
  ⟨rfl, rfl, rfl⟩

/-! Section: `algorithms/arrangement.py`: `generate_candidates` -/

/-- The loop body of `generate_candidates`: for `i` in `1..box_count`, keep
`(i, box_count // i)` when `i` divides `box_count` and `rows >= columns`. -/
def rawCandidates (n : ℕ) : List (ℕ × ℕ) :=
  (List.range n).filterMap (fun i0 =>
    let i := i0 + 1
    if n % i = 0 ∧ n / i ≤ i then some (i, n / i) else none)

/-- The sort key `(ratio_score(rows, columns), rows * columns)` compared the
way Python compares key tuples (lexicographically), as a Boolean `≤`. -/
def candLE (a b : ℕ × ℕ) : Bool :=
  decide (ratio_score a.1 a.2 < ratio_score b.1 b.2) ||
    (decide (ratio_score a.1 a.2 = ratio_score b.1 b.2) &&
      decide (a.1 * a.2 ≤ b.1 * b.2))

/-- From `algorithms/arrangement.py`, `generate_candidates`: divisor pairs with
`rows >= columns`, stably sorted ascending by
`(ratio_score(rows, columns), rows * columns)` (Python `list.sort` and
`List.mergeSort` are both stable sorts, so they produce the same list). -/
def generate_candidates (n : ℕ) : List (ℕ × ℕ) :=
  (rawCandidates n).mergeSort candLE

lemma candLE_trans (a b c : ℕ × ℕ) (hab : candLE a b = true)
    (hbc : candLE b c = true) : candLE a c = true := by
  simp only [candLE, Bool.or_eq_true, Bool.and_eq_true, decide_eq_true_eq] at *
  rcases hab with h1 | ⟨h1, h1'⟩ <;> rcases hbc with h2 | ⟨h2, h2'⟩
  · exact Or.inl (lt_trans h1 h2)
  · exact Or.inl (h2 ▸ h1)
  · exact Or.inl (h1 ▸ h2)
  · exact Or.inr ⟨h1.trans h2, le_trans h1' h2'⟩

lemma candLE_total (a b : ℕ × ℕ) : (candLE a b || candLE b a) = true := by
  simp only [candLE, Bool.or_eq_true, Bool.and_eq_true, decide_eq_true_eq]
  rcases lt_trichotomy (ratio_score a.1 a.2) (ratio_score b.1 b.2) with h | h | h
  · exact Or.inl (Or.inl h)
  · rcases le_total (a.1 * a.2) (b.1 * b.2) with h' | h'
    · exact Or.inl (Or.inr ⟨h, h'⟩)
    · exact Or.inr (Or.inr ⟨h.symm, h'⟩)
  · exact Or.inr (Or.inl h)

lemma mem_rawCandidates {n : ℕ} {rc : ℕ × ℕ} (h : rc ∈ rawCandidates n) :
    rc.1 * rc.2 = n ∧ rc.2 ≤ rc.1 := by
  unfold rawCandidates at h
  rcases List.mem_filterMap.1 h with ⟨i0, _, hif⟩
  by_cases hc : n % (i0 + 1) = 0 ∧ n / (i0 + 1) ≤ i0 + 1
  · rw [if_pos hc] at hif
    cases hif
    refine ⟨?_, hc.2⟩
    exact Nat.mul_div_cancel' (Nat.dvd_of_mod_eq_zero hc.1)
  · rw [if_neg hc] at hif
    cases hif

/-- Claim C4: Every pair produced by `generate_candidates n` (for positive `n`)
is a divisor pair `r * c = n` with `r ≥ c`, and the output is sorted
ascending by `ratio_score` as primary key and by total cell count `r * c` as
secondary key. -/
theorem generate_candidates_spec (n : ℕ) (_hn : 0 < n) :
    (∀ rc ∈ generate_candidates n, rc.1 * rc.2 = n ∧ rc.2 ≤ rc.1) ∧
    (generate_candidates n).Sorted (fun a b : ℕ × ℕ =>
      ratio_score a.1 a.2 < ratio_score b.1 b.2 ∨
        (ratio_score a.1 a.2 = ratio_score b.1 b.2 ∧ a.1 * a.2 ≤ b.1 * b.2)) := by
  constructor
  · intro rc hrc
    exact mem_rawCandidates (List.mem_mergeSort.1 hrc)
  · have hp := List.sorted_mergeSort candLE_trans candLE_total (rawCandidates n)
    refine hp.imp ?_
    intro a b hab
    simpa only [candLE, Bool.or_eq_true, Bool.and_eq_true, decide_eq_true_eq]
      using hab

/-- Witness for **C4** at `n = 6` (candidates `(3,2)` then `(6,1)`). -/
theorem generate_candidates_spec_witness :
    (∀ rc ∈ generate_candidates 6, rc.1 * rc.2 = 6 ∧ rc.2 ≤ rc.1) ∧
    (generate_candidates 6).Sorted (fun a b : ℕ × ℕ =>
      ratio_score a.1 a.2 < ratio_score b.1 b.2 ∨
        (ratio_score a.1 a.2 = ratio_score b.1 b.2 ∧ a.1 * a.2 ≤ b.1 * b.2)) :=
  generate_candidates_spec 6 (by decide)

/-- Claim C10: For `n ≥ 1` the candidate list is never empty: the pair
`(n, 1)` always survives the divisor/aspect filter, so the empty-list
fallback contemplated by the spec is unreachable. -/
theorem generate_candidates_ne_nil (n : ℕ) (hn : 0 < n) :
    (n, 1) ∈ generate_candidates n ∧ generate_candidates n ≠ [] := by
  have hmem : (n, 1) ∈ rawCandidates n := by
    unfold rawCandidates
    apply List.mem_filterMap.2
    refine ⟨n - 1, ?_, ?_⟩
    · exact List.mem_range.2 (by omega)
    · have hi : n - 1 + 1 = n := by omega
      rw [hi, if_pos ⟨Nat.mod_self n, by
        rw [Nat.div_self hn]; exact hn⟩, Nat.div_self hn]
  have hmem' : (n, 1) ∈ generate_candidates n := List.mem_mergeSort.2 hmem
  exact ⟨hmem', List.ne_nil_of_mem hmem'⟩

/-- Witness for **C10** at `n = 1`. -/
theorem generate_candidates_ne_nil_witness :
    (1, 1) ∈ generate_candidates 1 ∧ generate_candidates 1 ≠ [] :=
  generate_candidates_ne_nil 1 (by decide)

/-! Section: `algorithms/arrangement.py`: `try_arrangement`

The column-wise builder.  Per column (left to right) the code computes
`boxes_in_col = min(rows, ceil(remaining / remaining_columns))`, skips the
column if zero, and otherwise chooses the orientations by: strategy 1+2
(`rotate_count` from `0` to `boxes_in_col`, first all-`N`-with-rotated-suffix
that fits the pallet length), else strategy 3 (`empty_spaces` from `1` to
`rows - boxes_in_col`, breaking out early when the reduced count hits zero,
re-running the rotation search on the reduced count), else `return None`.
When strategy 3 breaks out early the loop's `else` is skipped and the
unmodified all-`N` assignment (which does not fit) is written into the
column; the trailing whole-grid `arrangement_fits_in_pallet` check then
rejects the grid.  The embedding mirrors this exactly. -/

/-- Python's `(a + b - 1) // b` ceiling division. -/
def ceilDiv (a b : ℕ) : ℕ := (a + b - 1) / b

/-- The nested `column_height` helper: `box.length` for `'N'`, `box.width`
for anything else (it is only ever applied to gap-free lists). -/
def columnHeightCode (box : Box) (orients : List Cell) : ℚ :=
  (orients.map (fun o => if o = Cell.N then box.length else box.width)).sum

/-- Strategies 1+2: the first `rotate_count` in `0..n` whose
all-`N`-then-`R`-suffix assignment fits the pallet length. -/
def rotSearch (box : Box) (pallet : Pallet) (n : ℕ) : Option (List Cell) :=
  (List.range (n + 1)).findSome? (fun k =>
    let test := List.replicate (n - k) Cell.N ++ List.replicate k Cell.R
    if columnHeightCode box test ≤ pallet.length then some test else none)

/-- Strategy 3's loop over `empty_spaces`, on the list of gap counts still to
try.  `none` means the loop ran out (`for`'s `else`: the whole arrangement
fails); `some none` means the `reduced_boxes <= 0` break fired (the column
keeps its non-fitting all-`N` assignment); `some (some (o, placed))` means a
reduced assignment `o` (with trailing gaps) fits and `placed` boxes go in. -/
def gapLoop (box : Box) (pallet : Pallet) (n : ℕ) :
    List ℕ → Option (Option (List Cell × ℕ))
  | [] => none
  | g :: rest =>
    if n - g = 0 then some none
    else
      match rotSearch box pallet (n - g) with
      | some o => some (some (o ++ List.replicate g Cell.O, n - g))
      | none => gapLoop box pallet n rest

/-- The whole per-column decision for `boxes_in_col = n`: the orientation
list written into the column together with the number of boxes counted as
placed, or `none` for the `return None` of strategy 3's exhaustion. -/
def columnFor (box : Box) (pallet : Pallet) (rows n : ℕ) :
    Option (List Cell × ℕ) :=
  match rotSearch box pallet n with
  | some o => some (o, n)
  | none =>
    match gapLoop box pallet n (List.range' 1 (rows - n)) with
    | none => none
    | some none => some (List.replicate n Cell.N, n)
    | some (some (o, placed)) => some (o, placed)

/-- A column of the grid: the chosen orientations on top, gaps below (the
grid is initialised all-`'O'` and positions `i < len(orientations)` are
overwritten). -/
def padCol (rows : ℕ) (o : List Cell) : List Cell :=
  o ++ List.replicate (rows - o.length) Cell.O

/-- The column loop of `try_arrangement`, recursing on the number of columns
still to fill, with `remaining` the boxes not yet placed; produces the
columns left to right. -/
def buildCols (box : Box) (pallet : Pallet) (rows : ℕ) :
    ℕ → ℕ → Option (List (List Cell))
  | 0, _ => some []
  | colsLeft + 1, remaining =>
    let n := min rows (ceilDiv remaining (colsLeft + 1))
    if n = 0 then
      (buildCols box pallet rows colsLeft remaining).map
        (fun rest => List.replicate rows Cell.O :: rest)
    else
      match columnFor box pallet rows n with
      | none => none
      | some (o, placed) =>
        (buildCols box pallet rows colsLeft (remaining - placed)).map
          (fun rest => padCol rows o :: rest)

/-- Reassemble the row-major grid from the list of columns. -/
def transposeCols (rows : ℕ) (cols : List (List Cell)) : Grid :=
  (List.range rows).map (fun r => cols.map (fun col => col.getD r Cell.O))

/-- From `algorithms/arrangement.py`, `try_arrangement`: build the columns, then
re-validate the whole grid with `arrangement_fits_in_pallet`. -/
def try_arrangement (rows columns : ℕ) (box : Box) (boxCount : ℕ)
    (pallet : Pallet) : Option Grid :=
  match buildCols box pallet rows columns boxCount with
  | none => none
  | some cols =>
    let g := transposeCols rows cols
    if arrangement_fits_in_pallet g box pallet then some g else none

/-- Number of non-Gap cells in one column / orientation list. -/
def countNonGap (cells : List Cell) : ℕ :=
  cells.countP (fun c => decide (c ≠ Cell.O))

/-- Number of non-Gap cells of a grid. -/
def gridNonGapCount (g : Grid) : ℕ := (g.map countNonGap).sum

/-! Subsection: The claim-side description of the same algorithm (C3): per column a
single priority-ordered candidate list — all-Normal, then rotated suffixes of
`k` boxes for `k` increasing, then for `g = 1, 2, …` gaps the same bottom-up
rotation search on the reduced count — with the first candidate whose summed
column height fits the pallet length winning, and a hard failure when none
fits. -/

/-- The gap-free rotation candidates for `n` boxes, `k` rotated, `k`
ascending from `0` (all-Normal first). -/
def rotCandidates (n : ℕ) : List (List Cell) :=
  (List.range (n + 1)).map (fun k =>
    List.replicate (n - k) Cell.N ++ List.replicate k Cell.R)

/-- The claim's priority-ordered candidate list for a column of `n` boxes in
a grid of `rows` rows: first the rotation candidates on the full count, then
for each `g ≥ 1` the rotation candidates on the reduced count `n - g` with
`g` trailing gaps.  The gap counts actually explored by the code are
`1 ≤ g ≤ rows − n` (the loop bound) with `n − g ≥ 1` (the reduced count must
still be positive, the `reduced_boxes <= 0` break). -/
def specCandidates (rows n : ℕ) : List (List Cell) :=
  rotCandidates n ++
    (List.range' 1 (min (rows - n) (n - 1))).flatMap (fun g =>
      (rotCandidates (n - g)).map (fun o => o ++ List.replicate g Cell.O))

/-- First candidate in priority order whose summed column height (Normal
contributes `box.length`, Rotated `box.width`, Gap `0`) fits the pallet
length. -/
def specFirstFit (box : Box) (pallet : Pallet) (rows n : ℕ) :
    Option (List Cell) :=
  (specCandidates rows n).find? (fun o => decide (specColHeight box o ≤ pallet.length))

/-- The claim-side column loop: quota `min(rows, ceil(remaining /
remaining_columns))`, empty column when zero, otherwise the first fitting
candidate (counting its non-gap cells as placed), hard failure when no
candidate fits. -/
def specBuildCols (box : Box) (pallet : Pallet) (rows : ℕ) :
    ℕ → ℕ → Option (List (List Cell))
  | 0, _ => some []
  | colsLeft + 1, remaining =>
    let n := min rows (ceilDiv remaining (colsLeft + 1))
    if n = 0 then
      (specBuildCols box pallet rows colsLeft remaining).map
        (fun rest => List.replicate rows Cell.O :: rest)
    else
      match specFirstFit box pallet rows n with
      | none => none
      | some o =>
        (specBuildCols box pallet rows colsLeft (remaining - countNonGap o)).map
          (fun rest => padCol rows o :: rest)

/-- The claim-side rendition of `try_arrangement`: the column policy of C3
followed by the final whole-grid validation of §4.4. -/
def try_arrangement_spec (rows columns : ℕ) (box : Box) (boxCount : ℕ)
    (pallet : Pallet) : Option Grid :=
  match specBuildCols box pallet rows columns boxCount with
  | none => none
  | some cols =>
    let g := transposeCols rows cols
    if arrangement_fits_in_pallet g box pallet then some g else none

/-! Subsection: Lemmas relating the code's column search to the priority list -/

lemma findSome_ite {α β : Type} (f : α → β) (p : β → Prop) [DecidablePred p] :
    ∀ l : List α,
      l.findSome? (fun a => if p (f a) then some (f a) else none) =
        (l.map f).find? (fun b => decide (p b)) := by
  intro l
  induction l with
  | nil => rfl
  | cons a t ih =>
    simp only [List.findSome?_cons, List.map_cons, List.find?_cons]
    by_cases h : p (f a)
    · simp [h]
    · simp [h, ih]

lemma find?_congr_mem {α : Type} {p q : α → Bool} :
    ∀ l : List α, (∀ a ∈ l, p a = q a) → l.find? p = l.find? q := by
  intro l
  induction l with
  | nil => intro _; rfl
  | cons a t ih =>
    intro h
    have ha := h a (List.mem_cons_self _ _)
    simp only [List.find?_cons, ha]
    cases hq : q a
    · exact ih (fun x hx => h x (List.mem_cons_of_mem _ hx))
    · rfl

lemma countP_replicate {α : Type} (p : α → Bool) (m : ℕ) (a : α) :
    (List.replicate m a).countP p = if p a then m else 0 := by
  induction m with
  | zero => simp
  | succ m ih =>
    rw [List.replicate_succ, List.countP_cons, ih]
    by_cases h : p a = true <;> simp [h]

lemma rotCandidates_mem {n : ℕ} {o : List Cell} (h : o ∈ rotCandidates n) :
    (∀ c ∈ o, c ≠ Cell.O) ∧ countNonGap o = n ∧ o.length = n := by
  rcases List.mem_map.1 h with ⟨k, hk, rfl⟩
  have hkn : k ≤ n := Nat.lt_succ_iff.1 (List.mem_range.1 hk)
  refine ⟨?_, ?_, ?_⟩
  · intro c hc
    rcases List.mem_append.1 hc with hc | hc
    · rw [List.eq_of_mem_replicate hc]; intro h; cases h
    · rw [List.eq_of_mem_replicate hc]; intro h; cases h
  · unfold countNonGap
    rw [List.countP_append]
    simp [countP_replicate]
    omega
  · simp
    omega

lemma columnHeightCode_eq_spec (box : Box) :
    ∀ o : List Cell, (∀ c ∈ o, c ≠ Cell.O) →
      columnHeightCode box o = specColHeight box o := by
  intro o
  induction o with
  | nil => intro _; rfl
  | cons c t ih =>
    intro h
    have hc := h c (List.mem_cons_self _ _)
    have ht := ih (fun x hx => h x (List.mem_cons_of_mem _ hx))
    unfold columnHeightCode specColHeight at *
    simp only [List.map_cons, List.sum_cons, ht]
    cases c with
    | N => simp [cellH]
    | R => simp [cellH]
    | O => exact absurd rfl hc

lemma specColHeight_append_gaps (box : Box) (o : List Cell) (g : ℕ) :
    specColHeight box (o ++ List.replicate g Cell.O) = specColHeight box o := by
  unfold specColHeight
  rw [List.map_append, List.sum_append, List.map_replicate]
  simp [cellH]

lemma countNonGap_append_gaps (o : List Cell) (g : ℕ) :
    countNonGap (o ++ List.replicate g Cell.O) = countNonGap o := by
  unfold countNonGap
  rw [List.countP_append, countP_replicate]
  simp

/-- The Boolean fit test used by the claim-side first-fit search. -/
def fitB (box : Box) (pallet : Pallet) (o : List Cell) : Bool :=
  decide (specColHeight box o ≤ pallet.length)

lemma rotSearch_eq_spec (box : Box) (pallet : Pallet) (n : ℕ) :
    rotSearch box pallet n = (rotCandidates n).find? (fitB box pallet) := by
  unfold rotSearch
  rw [findSome_ite (fun k => List.replicate (n - k) Cell.N ++ List.replicate k Cell.R)
    (fun o => columnHeightCode box o ≤ pallet.length)]
  have : (List.range (n + 1)).map
      (fun k => List.replicate (n - k) Cell.N ++ List.replicate k Cell.R) =
      rotCandidates n := rfl
  rw [this]
  apply find?_congr_mem
  intro o ho
  have hofree := (rotCandidates_mem ho).1
  unfold fitB
  rw [columnHeightCode_eq_spec box o hofree]

/-- The claim-side search over a section of gap counts. -/
def gapFind (box : Box) (pallet : Pallet) (n : ℕ) (gs : List ℕ) :
    Option (List Cell) :=
  (gs.flatMap (fun g =>
    (rotCandidates (n - g)).map (fun o => o ++ List.replicate g Cell.O))).find?
    (fitB box pallet)

lemma gapSection_find (box : Box) (pallet : Pallet) (n g : ℕ) :
    ((rotCandidates (n - g)).map (fun o => o ++ List.replicate g Cell.O)).find?
        (fitB box pallet) =
      Option.map (fun o => o ++ List.replicate g Cell.O)
        (rotSearch box pallet (n - g)) := by
  rw [List.find?_map, rotSearch_eq_spec]
  congr 1
  apply find?_congr_mem
  intro o _
  simp only [Function.comp_apply, fitB, specColHeight_append_gaps]

lemma someOr {α : Type} (a : α) (x : Option α) : (some a).or x = some a := rfl

lemma noneOr {α : Type} (x : Option α) : (Option.none).or x = x := by
  cases x <;> rfl

lemma gapLoop_eq (box : Box) (pallet : Pallet) (n : ℕ) :
    ∀ (gs₁ gs₂ : List ℕ), (∀ g ∈ gs₁, 1 ≤ n - g) →
      gapLoop box pallet n (gs₁ ++ gs₂) =
        match gapFind box pallet n gs₁ with
        | some o => some (some (o, countNonGap o))
        | none => gapLoop box pallet n gs₂ := by
  intro gs₁
  induction gs₁ with
  | nil => intro gs₂ _; rfl
  | cons g rest ih =>
    intro gs₂ h
    have hg : 1 ≤ n - g := h g (List.mem_cons_self _ _)
    have hgz : ¬ n - g = 0 := by omega
    have hsection := gapSection_find box pallet n g
    have hfind : gapFind box pallet n (g :: rest) =
        (Option.map (fun o => o ++ List.replicate g Cell.O)
          (rotSearch box pallet (n - g))).or
          ((rest.flatMap (fun g' =>
            (rotCandidates (n - g')).map
              (fun o => o ++ List.replicate g' Cell.O))).find? (fitB box pallet)) := by
      unfold gapFind
      rw [List.flatMap_cons, List.find?_append, hsection]
    show gapLoop box pallet n (g :: (rest ++ gs₂)) = _
    rw [gapLoop]
    rw [if_neg hgz]
    cases hrs : rotSearch box pallet (n - g) with
    | some o =>
      have ho : o ∈ rotCandidates (n - g) := by
        rw [rotSearch_eq_spec] at hrs
        exact List.mem_of_find?_eq_some hrs
      have hcount := (rotCandidates_mem ho).2.1
      rw [hfind, hrs]
      simp only [Option.map_some', someOr]
      rw [countNonGap_append_gaps, hcount]
    | none =>
      rw [hfind, hrs]
      simp only [Option.map_none', noneOr]
      rw [ih gs₂ (fun x hx => h x (List.mem_cons_of_mem _ hx))]
      rfl

lemma replicate_N_mem_rotCandidates (n : ℕ) :
    List.replicate n Cell.N ∈ rotCandidates n := by
  unfold rotCandidates
  apply List.mem_map.2
  exact ⟨0, List.mem_range.2 (Nat.succ_pos n), by simp⟩

lemma range'_eq_cons (s m : ℕ) (h : 1 ≤ m) :
    List.range' s m = s :: List.range' (s + 1) (m - 1) := by
  cases m with
  | zero => omega
  | succ k => rw [List.range'_succ]; simp

lemma range'_split (a m : ℕ) (h : a ≤ m) :
    List.range' 1 m = List.range' 1 a ++ List.range' (1 + a) (m - a) := by
  have hap := List.range'_append 1 a (m - a) 1
  simp only [one_mul] at hap
  rw [hap]
  congr 1
  omega

/-- Per-column characterization: if some candidate in the claim's priority
list fits, the code's column decision is exactly the first such candidate
(with its non-gap count as the placed count); if none fits, the code either
fails the whole attempt right away, or (when the `reduced_boxes <= 0` break
fires) writes the non-fitting all-Normal column, which the final grid check
is then guaranteed to reject. -/
lemma columnFor_cases (box : Box) (pallet : Pallet) (rows n : ℕ)
    (hn : 1 ≤ n) (hrn : n ≤ rows) :
    (specFirstFit box pallet rows n = none →
      columnFor box pallet rows n = none ∨
        (columnFor box pallet rows n = some (List.replicate n Cell.N, n) ∧
          ¬ specColHeight box (List.replicate n Cell.N) ≤ pallet.length)) ∧
    (∀ o, specFirstFit box pallet rows n = some o →
      columnFor box pallet rows n = some (o, countNonGap o)) := by
  have hsplit : specFirstFit box pallet rows n =
      ((rotCandidates n).find? (fitB box pallet)).or
        (gapFind box pallet n (List.range' 1 (min (rows - n) (n - 1)))) := by
    unfold specFirstFit specCandidates gapFind
    rw [List.find?_append]
    rfl
  cases hfr : (rotCandidates n).find? (fitB box pallet) with
  | some o =>
    have hcode : columnFor box pallet rows n = some (o, n) := by
      unfold columnFor
      rw [rotSearch_eq_spec, hfr]
    have hcnt : countNonGap o = n :=
      (rotCandidates_mem (List.mem_of_find?_eq_some hfr)).2.1
    constructor
    · intro hnone
      rw [hsplit, hfr, someOr] at hnone
      cases hnone
    · intro o' ho'
      rw [hsplit, hfr, someOr] at ho'
      cases ho'
      rw [hcode, hcnt]
  | none =>
    have hrs : rotSearch box pallet n = none := by
      rw [rotSearch_eq_spec, hfr]
    have hspec : specFirstFit box pallet rows n =
        gapFind box pallet n (List.range' 1 (min (rows - n) (n - 1))) := by
      rw [hsplit, hfr, noneOr]
    by_cases hm : rows - n ≤ n - 1
    · -- the gap loop runs out before the reduced count can reach zero
      have hmin : min (rows - n) (n - 1) = rows - n := min_eq_left hm
      have hpre : ∀ g ∈ List.range' 1 (rows - n), 1 ≤ n - g := by
        intro g hg
        have := List.mem_range'_1.1 hg
        omega
      have hloop := gapLoop_eq box pallet n (List.range' 1 (rows - n)) [] hpre
      rw [List.append_nil] at hloop
      cases hgf : gapFind box pallet n (List.range' 1 (rows - n)) with
      | some o =>
        constructor
        · intro hnone
          rw [hspec, hmin, hgf] at hnone
          cases hnone
        · intro o' ho'
          rw [hspec, hmin, hgf] at ho'
          cases ho'
          unfold columnFor
          rw [hrs, hloop, hgf]
      | none =>
        constructor
        · intro _
          left
          unfold columnFor
          rw [hrs, hloop, hgf]
          rfl
        · intro o' ho'
          rw [hspec, hmin, hgf] at ho'
          cases ho'
    · -- the reduced count reaches zero first: the break path
      have hmin : min (rows - n) (n - 1) = n - 1 := min_eq_right (by omega)
      have hsp : List.range' 1 (rows - n) =
          List.range' 1 (n - 1) ++ List.range' (1 + (n - 1)) (rows - n - (n - 1)) :=
        range'_split (n - 1) (rows - n) (by omega)
      have htail : List.range' (1 + (n - 1)) (rows - n - (n - 1)) =
          n :: List.range' (n + 1) (rows - n - (n - 1) - 1) := by
        have h1 : 1 + (n - 1) = n := by omega
        rw [h1, range'_eq_cons n _ (by omega)]
      have hpre : ∀ g ∈ List.range' 1 (n - 1), 1 ≤ n - g := by
        intro g hg
        have := List.mem_range'_1.1 hg
        omega
      have hloop := gapLoop_eq box pallet n (List.range' 1 (n - 1))
        (n :: List.range' (n + 1) (rows - n - (n - 1) - 1)) hpre
      cases hgf : gapFind box pallet n (List.range' 1 (n - 1)) with
      | some o =>
        constructor
        · intro hnone
          rw [hspec, hmin, hgf] at hnone
          cases hnone
        · intro o' ho'
          rw [hspec, hmin, hgf] at ho'
          cases ho'
          unfold columnFor
          rw [hrs, hsp, htail, hloop, hgf]
      | none =>
        constructor
        · intro _
          right
          have hbreak : gapLoop box pallet n
              (n :: List.range' (n + 1) (rows - n - (n - 1) - 1)) = some none := by
            rw [gapLoop]
            rw [if_pos (by omega : n - n = 0)]
          constructor
          · unfold columnFor
            rw [hrs, hsp, htail, hloop, hgf, hbreak]
          · have hall := List.find?_eq_none.1 hfr
            have := hall _ (replicate_N_mem_rotCandidates n)
            simpa [fitB] using this
        · intro o' ho'
          rw [hspec, hmin, hgf] at ho'
          cases ho'

lemma gapLoop_shape (box : Box) (pallet : Pallet) (n : ℕ) :
    ∀ (gs : List ℕ) (o : List Cell) (p : ℕ),
      gapLoop box pallet n gs = some (some (o, p)) →
        countNonGap o = p ∧ o.length = n ∧ 1 ≤ p ∧ p ≤ n := by
  intro gs
  induction gs with
  | nil => intro o p h; cases h
  | cons g rest ih =>
    intro o p h
    rw [gapLoop] at h
    by_cases hgz : n - g = 0
    · rw [if_pos hgz] at h; cases h
    · rw [if_neg hgz] at h
      cases hrs : rotSearch box pallet (n - g) with
      | some o' =>
        rw [hrs] at h
        simp only [Option.some.injEq, Prod.mk.injEq] at h
        obtain ⟨rfl, rfl⟩ := h
        have hmem : o' ∈ rotCandidates (n - g) := by
          rw [rotSearch_eq_spec] at hrs
          exact List.mem_of_find?_eq_some hrs
        rcases rotCandidates_mem hmem with ⟨_, hcnt, hlen⟩
        refine ⟨?_, ?_, by omega, by omega⟩
        · rw [countNonGap_append_gaps, hcnt]
        · simp only [List.length_append, List.length_replicate, hlen]
          omega
      | none =>
        rw [hrs] at h
        exact ih o p h

lemma columnFor_shape (box : Box) (pallet : Pallet) (rows n : ℕ)
    (o : List Cell) (p : ℕ) (h : columnFor box pallet rows n = some (o, p)) :
    countNonGap o = p ∧ o.length = n ∧ p ≤ n := by
  unfold columnFor at h
  cases hrs : rotSearch box pallet n with
  | some o' =>
    rw [hrs] at h
    simp only [Option.some.injEq, Prod.mk.injEq] at h
    obtain ⟨rfl, rfl⟩ := h
    have hmem : o' ∈ rotCandidates n := by
      rw [rotSearch_eq_spec] at hrs
      exact List.mem_of_find?_eq_some hrs
    rcases rotCandidates_mem hmem with ⟨_, hcnt, hlen⟩
    exact ⟨hcnt, hlen, le_rfl⟩
  | none =>
    rw [hrs] at h
    cases hgl : gapLoop box pallet n (List.range' 1 (rows - n)) with
    | none => rw [hgl] at h; cases h
    | some res =>
      cases res with
      | none =>
        rw [hgl] at h
        simp only [Option.some.injEq, Prod.mk.injEq] at h
        obtain ⟨rfl, rfl⟩ := h
        refine ⟨?_, by simp, le_rfl⟩
        unfold countNonGap
        rw [countP_replicate]
        simp
      | some op =>
        rcases op with ⟨o₁, p₁⟩
        rw [hgl] at h
        simp only [Option.some.injEq, Prod.mk.injEq] at h
        obtain ⟨rfl, rfl⟩ := h
        rcases gapLoop_shape box pallet n _ _ _ hgl with ⟨hc, hl, _, hp⟩
        exact ⟨hc, hl, hp⟩

lemma padCol_length (rows : ℕ) (o : List Cell) (h : o.length ≤ rows) :
    (padCol rows o).length = rows := by
  unfold padCol
  simp only [List.length_append, List.length_replicate]
  omega

lemma padCol_countNonGap (rows : ℕ) (o : List Cell) :
    countNonGap (padCol rows o) = countNonGap o :=
  countNonGap_append_gaps o _

lemma padCol_specColHeight (box : Box) (rows : ℕ) (o : List Cell) :
    specColHeight box (padCol rows o) = specColHeight box o :=
  specColHeight_append_gaps box o _

lemma ceilDiv_le (a b : ℕ) (hb : 0 < b) : ceilDiv a b ≤ a := by
  unfold ceilDiv
  rw [Nat.div_le_iff_le_mul_add_pred hb]
  have h1 : a ≤ b * a := Nat.le_mul_of_pos_left a hb
  omega

lemma buildCols_inv (box : Box) (pallet : Pallet) (rows : ℕ) :
    ∀ (colsLeft remaining : ℕ) (cols : List (List Cell)),
      buildCols box pallet rows colsLeft remaining = some cols →
        (∀ col ∈ cols, col.length = rows) ∧
        (cols.map countNonGap).sum ≤ remaining ∧
        cols.length = colsLeft := by
  intro colsLeft
  induction colsLeft with
  | zero =>
    intro remaining cols h
    cases h
    exact ⟨by simp, by simp, rfl⟩
  | succ k ih =>
    intro remaining cols h
    rw [buildCols] at h
    by_cases hz : min rows (ceilDiv remaining (k + 1)) = 0
    · rw [if_pos hz] at h
      cases hrec : buildCols box pallet rows k remaining with
      | none => rw [hrec] at h; cases h
      | some rest =>
        rw [hrec] at h
        simp only [Option.map_some', Option.some.injEq] at h
        obtain rfl := h.symm
        rcases ih remaining rest hrec with ⟨hlen, hcnt, hclen⟩
        refine ⟨?_, ?_, by simp [hclen]⟩
        · intro col hcol
          rcases List.mem_cons.1 hcol with rfl | hcol
          · simp
          · exact hlen col hcol
        · simp only [List.map_cons, List.sum_cons]
          have : countNonGap (List.replicate rows Cell.O) = 0 := by
            unfold countNonGap
            rw [countP_replicate]
            simp
          omega
    · rw [if_neg hz] at h
      cases hcf : columnFor box pallet rows (min rows (ceilDiv remaining (k + 1))) with
      | none => rw [hcf] at h; cases h
      | some op =>
        rcases op with ⟨o, p⟩
        rw [hcf] at h
        dsimp only at h
        cases hrec : buildCols box pallet rows k (remaining - p) with
        | none => rw [hrec] at h; cases h
        | some rest =>
          rw [hrec] at h
          simp only [Option.map_some', Option.some.injEq] at h
          obtain rfl := h.symm
          rcases ih (remaining - p) rest hrec with ⟨hlen, hcnt, hclen⟩
          rcases columnFor_shape box pallet rows _ o p hcf with ⟨hocnt, holen, hpn⟩
          have hon : o.length ≤ rows := by
            rw [holen]; exact min_le_left _ _
          have hpr : p ≤ remaining := by
            have h1 : min rows (ceilDiv remaining (k + 1)) ≤ ceilDiv remaining (k + 1) :=
              min_le_right _ _
            have h2 := ceilDiv_le remaining (k + 1) (Nat.succ_pos k)
            omega
          refine ⟨?_, ?_, by simp [hclen]⟩
          · intro col hcol
            rcases List.mem_cons.1 hcol with rfl | hcol
            · exact padCol_length rows o hon
            · exact hlen col hcol
          · simp only [List.map_cons, List.sum_cons, padCol_countNonGap, hocnt]
            omega

/-- The coupled induction: the claim-side column loop and the code's column
loop either agree exactly, or the claim side fails while the code writes a
column whose height exceeds the pallet length (the break path) — which the
final validation then necessarily rejects. -/
lemma build_eq (box : Box) (pallet : Pallet) (rows : ℕ) :
    ∀ (colsLeft remaining : ℕ),
      specBuildCols box pallet rows colsLeft remaining =
          buildCols box pallet rows colsLeft remaining ∨
        (specBuildCols box pallet rows colsLeft remaining = none ∧ 1 ≤ rows ∧
          ∃ cols, buildCols box pallet rows colsLeft remaining = some cols ∧
            ∃ col ∈ cols, ¬ specColHeight box col ≤ pallet.length) := by
  intro colsLeft
  induction colsLeft with
  | zero => intro remaining; left; rfl
  | succ k ih =>
    intro remaining
    set n := min rows (ceilDiv remaining (k + 1)) with hn
    by_cases hz : n = 0
    · -- empty column on both sides
      rcases ih remaining with heq | ⟨hnone, hr1, cols, hcode, col, hmem, hbad⟩
      · left
        rw [specBuildCols, buildCols, ← hn, if_pos hz, if_pos hz, heq]
      · right
        refine ⟨?_, hr1, List.replicate rows Cell.O :: cols, ?_, col,
          List.mem_cons_of_mem _ hmem, hbad⟩
        · rw [specBuildCols, ← hn, if_pos hz, hnone]
          rfl
        · rw [buildCols, ← hn, if_pos hz, hcode]
          rfl
    · have hn1 : 1 ≤ n := Nat.one_le_iff_ne_zero.2 hz
      have hnr : n ≤ rows := min_le_left _ _
      rcases columnFor_cases box pallet rows n hn1 hnr with ⟨hcnone, hcsome⟩
      cases hsf : specFirstFit box pallet rows n with
      | some o =>
        have hcf := hcsome o hsf
        rcases ih (remaining - countNonGap o) with heq | ⟨hnone, hr1, cols, hcode, col, hmem, hbad⟩
        · left
          rw [specBuildCols, buildCols, ← hn, if_neg hz, if_neg hz, hsf, hcf]
          dsimp only
          rw [heq]
        · right
          refine ⟨?_, hr1, padCol rows o :: cols, ?_, col,
            List.mem_cons_of_mem _ hmem, hbad⟩
          · rw [specBuildCols, ← hn, if_neg hz, hsf]
            dsimp only
            rw [hnone]
            rfl
          · rw [buildCols, ← hn, if_neg hz, hcf]
            dsimp only
            rw [hcode]
            rfl
      | none =>
        have hspec_none : specBuildCols box pallet rows (k + 1) remaining = none := by
          rw [specBuildCols, ← hn, if_neg hz, hsf]
        rcases hcnone hsf with hcfnone | ⟨hcf, hbadN⟩
        · left
          rw [hspec_none, buildCols, ← hn, if_neg hz, hcfnone]
        · -- the break path: the code writes the non-fitting all-Normal column
          cases hrec : buildCols box pallet rows k (remaining - n) with
          | none =>
            left
            rw [hspec_none, buildCols, ← hn, if_neg hz, hcf]
            dsimp only
            rw [hrec]
            rfl
          | some rest =>
            right
            refine ⟨hspec_none, by omega,
              padCol rows (List.replicate n Cell.N) :: rest, ?_,
              padCol rows (List.replicate n Cell.N), List.mem_cons_self _ _, ?_⟩
            · rw [buildCols, ← hn, if_neg hz, hcf]
              dsimp only
              rw [hrec]
              rfl
            · rw [padCol_specColHeight]
              exact hbadN

lemma getD_range_map {α : Type} (l : List α) (d : α) :
    (List.range l.length).map (fun r => l.getD r d) = l := by
  induction l with
  | nil => rfl
  | cons a t ih =>
    rw [List.length_cons, List.range_succ_eq_map, List.map_cons]
    simp only [List.getD_cons_zero]
    congr 1
    rw [List.map_map]
    have hfun : ((fun r => (a :: t).getD r d) ∘ Nat.succ) = fun r => t.getD r d := by
      funext r
      simp [List.getD_cons_succ]
    rw [hfun, ih]

lemma transposeCols_length (rows : ℕ) (cols : List (List Cell)) :
    (transposeCols rows cols).length = rows := by
  simp [transposeCols]

lemma transposeCols_head (rows : ℕ) (cols : List (List Cell)) (h : 1 ≤ rows) :
    (transposeCols rows cols).headD [] =
      cols.map (fun col => col.getD 0 Cell.O) := by
  unfold transposeCols
  cases rows with
  | zero => omega
  | succ m => rw [List.range_succ_eq_map]; simp

lemma columnsOf_transpose (rows : ℕ) (cols : List (List Cell)) (h : 1 ≤ rows) :
    columnsOf (transposeCols rows cols) = cols.length := by
  unfold columnsOf
  rw [transposeCols_head rows cols h]
  simp

lemma columnCells_transpose (rows : ℕ) (cols : List (List Cell))
    (hlen : ∀ col ∈ cols, col.length = rows) (i : ℕ) (hi : i < cols.length) :
    columnCells (transposeCols rows cols) i = cols.get ⟨i, hi⟩ := by
  unfold columnCells transposeCols
  rw [List.map_map]
  have hfun : ((fun row => row.getD i Cell.O) ∘
      (fun r => cols.map (fun col => col.getD r Cell.O))) =
      fun r => (cols.get ⟨i, hi⟩).getD r Cell.O := by
    funext r
    simp only [Function.comp_apply]
    rw [List.getD_eq_getElem?_getD, List.getElem?_map, List.getElem?_eq_getElem hi]
    simp [List.get_eq_getElem]
  rw [hfun]
  have hl : (cols.get ⟨i, hi⟩).length = rows := hlen _ (List.get_mem _ _ _)
  rw [← hl, getD_range_map]

lemma le_foldl_max (l : List ℚ) :
    ∀ a : ℚ, a ≤ l.foldl max a ∧ ∀ x ∈ l, x ≤ l.foldl max a := by
  induction l with
  | nil => intro a; exact ⟨le_rfl, by simp⟩
  | cons b t ih =>
    intro a
    constructor
    · exact le_trans (le_max_left a b) (ih (max a b)).1
    · intro x hx
      rcases List.mem_cons.1 hx with rfl | hx
      · exact le_trans (le_max_right a x) (ih (max a x)).1
      · exact (ih (max a b)).2 x hx

lemma mem_le_pyMaxOr0 (l : List ℚ) (x : ℚ) (hx : x ∈ l) : x ≤ pyMaxOr0 l := by
  cases l with
  | nil => cases hx
  | cons h t =>
    unfold pyMaxOr0
    rcases List.mem_cons.1 hx with rfl | hx
    · exact (le_foldl_max t x).1
    · exact (le_foldl_max t h).2 x hx

/-- A grid assembled from at least one column of positive height budget
violation cannot pass the final `arrangement_fits_in_pallet` check. -/
lemma fits_false_of_bad_col (box : Box) (pallet : Pallet) (rows : ℕ)
    (cols : List (List Cell)) (hr : 1 ≤ rows)
    (hlen : ∀ col ∈ cols, col.length = rows)
    (col : List Cell) (hmem : col ∈ cols)
    (hbad : ¬ specColHeight box col ≤ pallet.length) :
    arrangement_fits_in_pallet (transposeCols rows cols) box pallet = false := by
  rcases List.mem_iff_get.1 hmem with ⟨⟨i, hi⟩, hget⟩
  have hnd : degenerate (transposeCols rows cols) = false := by
    unfold degenerate
    have h1 : (transposeCols rows cols).isEmpty = false := by
      cases hcase : transposeCols rows cols with
      | nil =>
        have := transposeCols_length rows cols
        rw [hcase] at this
        simp at this
        omega
      | cons a t => rfl
    have h2 : ((transposeCols rows cols).headD []).isEmpty = false := by
      rw [transposeCols_head rows cols hr]
      cases hcase : cols.map (fun col => col.getD 0 Cell.O) with
      | nil =>
        have hlen0 : cols.length = 0 := by
          have := congrArg List.length hcase
          simpa using this
        omega
      | cons a t => rfl
    rw [h1, h2]
    rfl
  have hheight : ¬ totalHeight (transposeCols rows cols) box ≤ pallet.length := by
    have hx : (colDims box (columnCells (transposeCols rows cols) i)).2 ∈
        columnHeights (transposeCols rows cols) box := by
      unfold columnHeights
      apply List.mem_map.2
      refine ⟨i, List.mem_range.2 ?_, rfl⟩
      rw [columnsOf_transpose rows cols hr]
      exact hi
    have hcc : columnCells (transposeCols rows cols) i = col := by
      rw [columnCells_transpose rows cols hlen i hi, hget]
    rw [hcc, colDims_eq] at hx
    have := mem_le_pyMaxOr0 _ _ hx
    unfold totalHeight
    intro hle
    exact hbad (le_trans this hle)
  unfold arrangement_fits_in_pallet
  rw [hnd]
  simp only [Bool.false_eq_true, if_false]
  rw [decide_eq_false hheight]
  simp

/-- Claim C3: `try_arrangement` implements exactly the per-column policy the
claim describes: per column (left to right) `boxes_in_col = min(rows,
ceil(remaining / remaining_columns))`; the column's orientation assignment
is the first in priority order — all-Normal, then all-Normal with a rotated
suffix of `k` boxes for `k` increasing, then reduced counts with `g` gaps for
`g` increasing (the code explores `1 ≤ g ≤ rows − boxes_in_col` while the
reduced count stays positive) with the same bottom-up rotation search — whose
summed column height fits the pallet length; and if no `(g, k)` combination
fits, the whole attempt fails (`None`).  Stated as: the code equals the
claim-side rendition `try_arrangement_spec` on every input. -/
theorem try_arrangement_column_policy (rows columns : ℕ) (box : Box)
    (count : ℕ) (pallet : Pallet) :
    try_arrangement rows columns box count pallet =
      try_arrangement_spec rows columns box count pallet := by
  rcases build_eq box pallet rows columns count with heq |
    ⟨hnone, hr1, cols, hcode, col, hmem, hbad⟩
  · unfold try_arrangement try_arrangement_spec
    rw [heq]
  · unfold try_arrangement try_arrangement_spec
    rw [hnone, hcode]
    have hlen := (buildCols_inv box pallet rows columns count cols hcode).1
    dsimp only
    rw [fits_false_of_bad_col box pallet rows cols hr1 hlen col hmem hbad]
    rfl

lemma countP_eq_sum_map {α : Type} (p : α → Bool) :
    ∀ l : List α, l.countP p = (l.map (fun x => if p x = true then 1 else 0)).sum := by
  intro l
  induction l with
  | nil => rfl
  | cons a t ih =>
    rw [List.countP_cons, List.map_cons, List.sum_cons, ih]
    omega

lemma gridNonGapCount_transpose (rows : ℕ) :
    ∀ cols : List (List Cell), (∀ col ∈ cols, col.length = rows) →
      gridNonGapCount (transposeCols rows cols) = (cols.map countNonGap).sum := by
  intro cols
  induction cols with
  | nil =>
    intro _
    unfold gridNonGapCount transposeCols
    rw [List.map_map]
    have : (countNonGap ∘ fun r => ([] : List (List Cell)).map
        (fun col => col.getD r Cell.O)) = fun _ => 0 := by
      funext r
      rfl
    rw [this]
    simp
  | cons col rest ih =>
    intro hlen
    have hcol : col.length = rows := hlen col (List.mem_cons_self _ _)
    have hrest := ih (fun c hc => hlen c (List.mem_cons_of_mem _ hc))
    unfold gridNonGapCount transposeCols at hrest ⊢
    rw [List.map_map] at hrest ⊢
    have hsplit : (countNonGap ∘ fun r => (col :: rest).map
        (fun c => c.getD r Cell.O)) =
        fun r => countNonGap (rest.map (fun c => c.getD r Cell.O)) +
          (if decide (col.getD r Cell.O ≠ Cell.O) = true then 1 else 0) := by
      funext r
      simp only [Function.comp_apply, List.map_cons]
      unfold countNonGap
      rw [List.countP_cons]
    rw [hsplit, List.sum_map_add]
    have hfirst : ((List.range rows).map
        (fun r => countNonGap (rest.map (fun c => c.getD r Cell.O)))).sum =
        (rest.map countNonGap).sum := by
      rw [← hrest]
      congr 1
    have hsecond : ((List.range rows).map
        (fun r => if decide (col.getD r Cell.O ≠ Cell.O) = true then 1 else 0)).sum =
        countNonGap col := by
      unfold countNonGap
      rw [countP_eq_sum_map]
      have hcoleq : col = (List.range rows).map (fun r => col.getD r Cell.O) := by
        rw [← hcol, getD_range_map]
      conv_rhs => rw [hcoleq]
      rw [List.map_map]
      rfl
    rw [hfirst, hsecond, List.map_cons, List.sum_cons]
    omega

/-- Claim C2, amended: A grid returned by `try_arrangement` always satisfies
`arrangement_fits_in_pallet` and contains at most `count` non-Gap cells (the
claim's "exactly `count`" fails: column reductions and row capping can place
fewer, see the counterexample). -/
theorem try_arrangement_success (rows columns : ℕ) (box : Box) (count : ℕ)
    (pallet : Pallet) (g : Grid)
    (h : try_arrangement rows columns box count pallet = some g) :
    arrangement_fits_in_pallet g box pallet = true ∧
      gridNonGapCount g ≤ count := by
  unfold try_arrangement at h
  cases hb : buildCols box pallet rows columns count with
  | none => rw [hb] at h; cases h
  | some cols =>
    rw [hb] at h
    dsimp only at h
    by_cases hfits : arrangement_fits_in_pallet (transposeCols rows cols) box pallet = true
    · rw [if_pos hfits] at h
      injection h with h2
      subst h2
      refine ⟨hfits, ?_⟩
      rcases buildCols_inv box pallet rows columns count cols hb with ⟨hlen, hcnt, _⟩
      rw [gridNonGapCount_transpose rows cols hlen]
      exact hcnt
    · rw [if_neg hfits] at h
      cases h

/-- Counterexample to **C2** as stated: with a 1 × 1 grid and `count = 2`,
`try_arrangement` succeeds but places only one box (the per-column quota is
capped at `rows`), so the returned grid has 1 ≠ 2 non-Gap cells. -/
theorem try_arrangement_count_counterexample :
    try_arrangement 1 1 ⟨10, 20⟩ 2 ⟨40, 48⟩ = some [[Cell.N]] ∧
      gridNonGapCount [[Cell.N]] ≠ 2 := by
  constructor
  · norm_num [try_arrangement, buildCols, columnFor, rotSearch, gapLoop, ceilDiv,
      columnHeightCode, transposeCols, arrangement_fits_in_pallet, degenerate,
      totalWidth, totalHeight, columnWidths, columnHeights, columnsOf, columnCells,
      colDims, pyMaxOr0, padCol, List.range_succ, List.findSome?]
  · decide

/-- Witness for **C2 (amended)** at the 2 × 2 all-Normal scenario. -/
theorem try_arrangement_success_witness :
    arrangement_fits_in_pallet [[Cell.N, Cell.N], [Cell.N, Cell.N]] ⟨10, 20⟩
        ⟨50, 50⟩ = true ∧
      gridNonGapCount [[Cell.N, Cell.N], [Cell.N, Cell.N]] ≤ 4 :=
  try_arrangement_success 2 2 ⟨10, 20⟩ 4 ⟨50, 50⟩
    [[Cell.N, Cell.N], [Cell.N, Cell.N]] (by
      norm_num [try_arrangement, buildCols, columnFor, rotSearch, gapLoop, ceilDiv,
        columnHeightCode, transposeCols, arrangement_fits_in_pallet, degenerate,
        totalWidth, totalHeight, columnWidths, columnHeights, columnsOf, columnCells,
        colDims, pyMaxOr0, padCol, List.range_succ, List.findSome?])

/-! Section: `algorithms/arrangement.py`: `find_best_arrangement_with_custom_pallet`
and `algorithms/scaling.py`: `find_best_arrangement_with_scaling` -/

/-- The loop body of `find_best_arrangement_with_custom_pallet`: try the
candidate shape and keep it when `area < best_area or (abs(area − best_area)
< 1e-6 and score < best_score)`.  The initial `best_area = best_score = inf`
registers are modelled by `none` (any finite area beats `inf`, and
`abs(area − inf) < 1e-6` is false, so the first success is always kept). -/
def betterStep (box : Box) (count : ℕ) (pallet : Pallet)
    (acc : Option (Grid × ℚ × WithTop ℚ)) (rc : ℕ × ℕ) :
    Option (Grid × ℚ × WithTop ℚ) :=
  match try_arrangement rc.1 rc.2 box count pallet with
  | none => acc
  | some arr =>
    let area := calculate_arrangement_area arr box
    let score := ratio_score rc.1 rc.2
    match acc with
    | none => some (arr, area, score)
    | some (bg, ba, bs) =>
      if area < ba ∨ (|area - ba| < 1 / 1000000 ∧ score < bs) then
        some (arr, area, score)
      else some (bg, ba, bs)

/-- Function `find_best_arrangement_with_custom_pallet`: fold over the candidate
shapes, return the tracked best arrangement (or `None`). -/
def find_best_arrangement_with_custom_pallet (box : Box) (count : ℕ)
    (pallet : Pallet) : Option Grid :=
  ((generate_candidates count).foldl (betterStep box count pallet) none).map
    (fun x => x.1)

/-- One iteration of the scaling loop at scale factor `1 + k/10`: scale the
standard pallet, run the full candidate search, accept only when
`rows >= columns` (otherwise the iteration yields nothing and the loop
continues). -/
def scalingAttempt (box : Box) (count : ℕ) (k : ℕ) :
    Option (Grid × ℕ × ℕ × Pallet) :=
  let pallet := standardPallet.scale (1 + (k : ℚ) / 10)
  match find_best_arrangement_with_custom_pallet box count pallet with
  | none => none
  | some arr =>
    let rows := arr.length
    let cols := if arr.length = 0 then 0 else (arr.headD []).length
    if cols ≤ rows then some (arr, rows, cols, pallet) else none

/-- From `algorithms/scaling.py`, `find_best_arrangement_with_scaling`: the
`while scale_factor <= 3.0` loop visits exactly the factors `1 + k/10` for
`k = 0, …, 20` (`1 + 21/10 > 3`); the first accepted iteration is returned,
and exhaustion (`raise ValueError`) is modelled as `none`. -/
def find_best_arrangement_with_scaling (box : Box) (count : ℕ) :
    Option (Grid × ℕ × ℕ × Pallet) :=
  (List.range 21).findSome? (scalingAttempt box count)

lemma findSome?_range_first {β : Type} (f : ℕ → Option β) :
    ∀ n : ℕ,
      match (List.range n).findSome? f with
      | none => ∀ k, k < n → f k = none
      | some b => ∃ k, k < n ∧ f k = some b ∧ ∀ j, j < k → f j = none := by
  intro n
  induction n with
  | zero =>
    intro k hk
    omega
  | succ m ih =>
    rw [List.range_succ, List.findSome?_append]
    cases hm : (List.range m).findSome? f with
    | some b =>
      rw [hm] at ih
      rw [someOr]
      rcases ih with ⟨k, hk, hfk, hprev⟩
      exact ⟨k, by omega, hfk, hprev⟩
    | none =>
      rw [hm] at ih
      rw [noneOr]
      have hsingle : List.findSome? f [m] = f m := by
        simp [List.findSome?_cons]
        cases f m <;> simp
      rw [hsingle]
      cases hfm : f m with
      | some b =>
        exact ⟨m, by omega, hfm, fun j hj => ih j hj⟩
      | none =>
        intro k hk
        by_cases hkm : k < m
        · exact ih k hkm
        · have : k = m := by omega
          rw [this]
          exact hfm

lemma scalingAttempt_shape (box : Box) (count : ℕ) (k : ℕ)
    (res : Grid × ℕ × ℕ × Pallet)
    (h : scalingAttempt box count k = some res) :
    res.2.2.1 ≤ res.2.1 ∧
      res.2.2.2 = standardPallet.scale (1 + (k : ℚ) / 10) := by
  unfold scalingAttempt at h
  dsimp only at h
  cases hf : find_best_arrangement_with_custom_pallet box count
      (standardPallet.scale (1 + (k : ℚ) / 10)) with
  | none => rw [hf] at h; cases h
  | some arr =>
    rw [hf] at h
    dsimp only at h
    by_cases hc : (if arr.length = 0 then 0 else (arr.headD []).length) ≤ arr.length
    · rw [if_pos hc] at h
      injection h with h2
      subst h2
      exact ⟨hc, rfl⟩
    · rw [if_neg hc] at h
      cases h

/-- Claim C6: If `find_best_arrangement_with_scaling` returns, the result has
`rows ≥ columns`, its pallet is the standard pallet scaled by a factor
`1 + k/10 ≤ 3` (`k < 21`; the loop starts at `1.0` and steps by `0.1` up to
the `3.0` cap), and it is the first success in increasing factor order; if no
factor up to the cap yields an accepted arrangement, the function raises
(modelled: returns no value). -/
theorem find_best_arrangement_with_scaling_spec (box : Box) (count : ℕ) :
    match find_best_arrangement_with_scaling box count with
    | none => ∀ k, k < 21 → scalingAttempt box count k = none
    | some res =>
      res.2.2.1 ≤ res.2.1 ∧
        ∃ k : ℕ, k < 21 ∧ (1 : ℚ) + (k : ℚ) / 10 ≤ 3 ∧
          res.2.2.2 = standardPallet.scale (1 + (k : ℚ) / 10) ∧
          scalingAttempt box count k = some res ∧
          ∀ j, j < k → scalingAttempt box count j = none := by
  have hfirst := findSome?_range_first (scalingAttempt box count) 21
  unfold find_best_arrangement_with_scaling
  cases hres : (List.range 21).findSome? (scalingAttempt box count) with
  | none =>
    rw [hres] at hfirst
    exact hfirst
  | some res =>
    rw [hres] at hfirst
    rcases hfirst with ⟨k, hk, hfk, hprev⟩
    rcases scalingAttempt_shape box count k res hfk with ⟨hrc, hpal⟩
    refine ⟨hrc, k, hk, ?_, hpal, hfk, hprev⟩
    have hk20 : (k : ℚ) ≤ 20 := by
      exact_mod_cast Nat.le_of_lt_succ hk
    linarith

/-- Witness for **C6**: the specification instantiated at a concrete box and
count. -/
theorem find_best_arrangement_with_scaling_spec_witness :
    match find_best_arrangement_with_scaling ⟨10, 20⟩ 4 with
    | none => ∀ k, k < 21 → scalingAttempt ⟨10, 20⟩ 4 k = none
    | some res =>
      res.2.2.1 ≤ res.2.1 ∧
        ∃ k : ℕ, k < 21 ∧ (1 : ℚ) + (k : ℚ) / 10 ≤ 3 ∧
          res.2.2.2 = standardPallet.scale (1 + (k : ℚ) / 10) ∧
          scalingAttempt ⟨10, 20⟩ 4 k = some res ∧
          ∀ j, j < k → scalingAttempt ⟨10, 20⟩ 4 j = none :=
  find_best_arrangement_with_scaling_spec ⟨10, 20⟩ 4

/-! Section: `algorithms/arrangement.py`: the flexible placement algorithm, and
`algorithms/optimization.py`: `auto_optimize_box_count` -/

/-- Python `grid[row][col]` (out-of-range reads default to a gap; all accesses are
in range on the rectangular grids the callers build). -/
def gridGet (g : Grid) (r c : ℕ) : Cell := (g.getD r []).getD c Cell.O

/-- Python `grid[row][col] = v`. -/
def gridSet (g : Grid) (r c : ℕ) (v : Cell) : Grid :=
  g.set r ((g.getD r []).set c v)

/-- The shared inner row loop of the `_place_*` helpers: walk the rows of
column `col`, stopping when `boxes_placed >= box_count`; tentatively place
`orient` and commit if the grid still fits.  The priority fill
(`checkEmpty`) only touches cells that are still `'O'` and skips on to the
next row after a failed fit; the mixed-columns and space-efficiency fills
have no emptiness test and break out of the column at the first failed fit
(`breakOnFail`). -/
def placeColumn (box : Box) (pallet : Pallet) (orient : Cell) (count : ℕ)
    (checkEmpty breakOnFail : Bool) (col : ℕ) : List ℕ → Grid × ℕ → Grid × ℕ
  | [], st => st
  | row :: rest, (g, placed) =>
    if count ≤ placed then (g, placed)
    else if checkEmpty ∧ ¬ gridGet g row col = Cell.O then
      placeColumn box pallet orient count checkEmpty breakOnFail col rest (g, placed)
    else
      let tg := gridSet g row col orient
      if arrangement_fits_in_pallet tg box pallet then
        placeColumn box pallet orient count checkEmpty breakOnFail col rest
          (tg, placed + 1)
      else if breakOnFail then (g, placed)
      else placeColumn box pallet orient count checkEmpty breakOnFail col rest
        (g, placed)

/-- Helper `_place_with_priority`: a full pass placing `o1` wherever it fits, then a
second pass filling remaining empty cells with `o2`. -/
def place_with_priority (box : Box) (pallet : Pallet) (count : ℕ)
    (o1 o2 : Cell) (g : Grid) : Grid × ℕ :=
  let rows := g.length
  let cols := (g.headD []).length
  let pass1 := (List.range cols).foldl
    (fun st col =>
      placeColumn box pallet o1 count true false col (List.range rows) st)
    (g, 0)
  (List.range cols).foldl
    (fun st col =>
      placeColumn box pallet o2 count true false col (List.range rows) st)
    pass1

/-- Helper `_place_mixed_columns`: orientation alternates by column parity, breaking
out of a column at the first failed fit. -/
def place_mixed_columns (box : Box) (pallet : Pallet) (count : ℕ)
    (g : Grid) : Grid × ℕ :=
  let rows := g.length
  let cols := (g.headD []).length
  (List.range cols).foldl
    (fun st col =>
      let orient := if col % 2 = 0 then Cell.N else Cell.R
      placeColumn box pallet orient count false true col (List.range rows) st)
    (g, 0)

/-- Helper `_get_column_width_for_test`: max width demanded by the cells already in
column `c`. -/
def colWidthTest (g : Grid) (c : ℕ) (box : Box) : ℚ :=
  g.foldl
    (fun acc row =>
      match row.getD c Cell.O with
      | Cell.N => max acc box.width
      | Cell.R => max acc box.length
      | Cell.O => acc)
    0

/-- Helper `_place_by_space_efficiency`: per column, pick the orientation from the
pallet width remaining after the columns to its left (skipping the column if
neither fits), then fill the column breaking at the first failed fit. -/
def place_by_space_efficiency (box : Box) (pallet : Pallet) (count : ℕ)
    (g : Grid) : Grid × ℕ :=
  let rows := g.length
  let cols := (g.headD []).length
  (List.range cols).foldl
    (fun st col =>
      let remaining := pallet.width -
        ((List.range col).map (fun c => colWidthTest st.1 c box)).sum
      if max box.width box.length ≤ remaining then
        let orient := if box.width < box.length then Cell.R else Cell.N
        placeColumn box pallet orient count false true col (List.range rows) st
      else if box.width ≤ remaining then
        placeColumn box pallet Cell.N count false true col (List.range rows) st
      else if box.length ≤ remaining then
        placeColumn box pallet Cell.R count false true col (List.range rows) st
      else st)
    (g, 0)

/-- A fresh all-gap `rows × cols` grid. -/
def emptyGrid (rows cols : ℕ) : Grid :=
  List.replicate rows (List.replicate cols Cell.O)

/-- Function `try_flexible_placement`: run the four patterns in order on a fresh grid
and return the first whose placement count reaches `box_count` and whose grid
passes the fit check. -/
def try_flexible_placement (box : Box) (pallet : Pallet)
    (count rows cols : ℕ) : Option Grid :=
  let patterns : List (Grid → Grid × ℕ) :=
    [place_with_priority box pallet count Cell.N Cell.R,
     place_with_priority box pallet count Cell.R Cell.N,
     place_mixed_columns box pallet count,
     place_by_space_efficiency box pallet count]
  patterns.findSome? (fun pat =>
    let res := pat (emptyGrid rows cols)
    if count ≤ res.2 ∧ arrangement_fits_in_pallet res.1 box pallet then
      some res.1
    else none)

/-- Function `try_flexible_arrangement` (with the default `max_grid_size = (8, 8)`):
grid sizes `1..7 × 1..7` with `rows*columns ≥ box_count`, keeping the
placement with the strictly largest efficiency
`box_count * box.area / arrangement_area` (best starts at `0.0`). -/
def try_flexible_arrangement (box : Box) (count : ℕ) (pallet : Pallet) :
    Option Grid :=
  ((List.range' 1 7).foldl
    (fun acc rows =>
      (List.range' 1 7).foldl
        (fun acc2 colsN =>
          if rows * colsN < count then acc2
          else
            match try_flexible_placement box pallet count rows colsN with
            | none => acc2
            | some arr =>
              let area := calculate_arrangement_area arr box
              let eff := if 0 < area then (count : ℚ) * box.area / area else 0
              let best := match acc2 with
                | none => (0 : ℚ)
                | some be => be.2
              if best < eff then some (arr, eff) else acc2)
        acc)
    none).map (fun be => be.1)

/-- Python `int(original_pallet_area / single_box_area)`: Python `int()` truncates
toward zero. -/
def pyInt (q : ℚ) : ℤ := if q < 0 then -((-q).floor) else q.floor

/-- Python `theoretical_max = int(PALLET_WIDTH*PALLET_LENGTH / box.area)`. -/
def theoreticalMax (box : Box) : ℤ :=
  pyInt ((PALLET_WIDTH * PALLET_LENGTH) / box.area)

/-- Python `min_boxes = max(1, theoretical_max // 4)` (Python `//` is floor
division, `Int.fdiv`). -/
def sweepLo (box : Box) : ℤ := max 1 (Int.fdiv (theoreticalMax box) 4)

/-- Python `max_boxes = min(theoretical_max * 2, 100)`. -/
def sweepHi (box : Box) : ℤ := min (theoreticalMax box * 2) 100

/-- Python `range(min_boxes, max_boxes + 1)`; all members are ≥ 1 since
`min_boxes ≥ 1`. -/
def sweepList (box : Box) : List ℕ :=
  (List.range (sweepHi box + 1 - sweepLo box).toNat).map
    (fun i => (sweepLo box).toNat + i)

/-- The symmetric area efficiency
`min(area / standard_area, standard_area / area)`. -/
def symEff (area : ℚ) : ℚ :=
  min (area / (PALLET_WIDTH * PALLET_LENGTH))
    ((PALLET_WIDTH * PALLET_LENGTH) / area)

/-- The per-count body of `auto_optimize_box_count`: run both the candidate
search and the flexible search on the standard pallet, then pick the
flexible result exactly when its symmetric efficiency is strictly larger. -/
def bestForCount (box : Box) (count : ℕ) : Option Grid :=
  let arrangement := find_best_arrangement_with_custom_pallet box count standardPallet
  let flexible := try_flexible_arrangement box count standardPallet
  match arrangement, flexible with
  | some a, some f =>
    if symEff (calculate_arrangement_area a box) <
        symEff (calculate_arrangement_area f box) then some f else some a
  | none, some f => some f
  | some a, none => some a
  | none, none => none

/-- The running-best state of the sweep: grid, rows, columns, count, score
(`best_pallet` is `Pallet()` at initialisation and at every update, so it is
kept implicit and attached on return). -/
abbrev AutoSt := Grid × ℕ × ℕ × ℕ × ℚ

/-- The sweep body: on success compute
`score = (1 - area_efficiency)*1000 - box_count` and keep the smaller score
(`best_score` starts at `inf`, modelled by `none`: the first success always
wins). -/
def autoStep (box : Box) (acc : Option AutoSt) (cnt : ℕ) : Option AutoSt :=
  match bestForCount box cnt with
  | none => acc
  | some g =>
    let rows := g.length
    let cols := if rows = 0 then 0 else (g.headD []).length
    let eff := symEff (calculate_arrangement_area g box)
    let score := (1 - eff) * 1000 - (cnt : ℚ)
    match acc with
    | none => some (g, rows, cols, cnt, score)
    | some prev =>
      if score < prev.2.2.2.2 then some (g, rows, cols, cnt, score) else acc

/-- From `algorithms/optimization.py`, `auto_optimize_box_count`: sweep the counts,
return the best (always with the standard pallet); an empty best at the end
(`raise ValueError`) is modelled as `none`. -/
def auto_optimize_box_count (box : Box) :
    Option (Grid × ℕ × ℕ × ℕ × Pallet) :=
  ((sweepList box).foldl (autoStep box) none).map
    (fun b => (b.1, b.2.1, b.2.2.1, b.2.2.2.1, standardPallet))

lemma autoStep_none (box : Box) :
    ∀ (cs : List ℕ) (acc : Option AutoSt),
      cs.foldl (autoStep box) acc = none →
        acc = none ∧ ∀ c ∈ cs, bestForCount box c = none := by
  intro cs
  induction cs with
  | nil => intro acc h; exact ⟨h, by simp⟩
  | cons c rest ih =>
    intro acc h
    rw [List.foldl_cons] at h
    rcases ih (autoStep box acc c) h with ⟨hstep, hrest⟩
    have hbc : bestForCount box c = none ∧ acc = none := by
      unfold autoStep at hstep
      cases hb : bestForCount box c with
      | none => rw [hb] at hstep; exact ⟨rfl, hstep⟩
      | some g =>
        rw [hb] at hstep
        dsimp only at hstep
        cases hacc : acc with
        | none => rw [hacc] at hstep; dsimp only at hstep; cases hstep
        | some prev =>
          rw [hacc] at hstep
          dsimp only at hstep
          by_cases hsc : (1 - symEff (calculate_arrangement_area g box)) * 1000 -
              (c : ℚ) < prev.2.2.2.2
          · rw [if_pos hsc] at hstep; cases hstep
          · rw [if_neg hsc] at hstep; cases hstep
    refine ⟨hbc.2, ?_⟩
    intro c' hc'
    rcases List.mem_cons.1 hc' with rfl | hc'
    · exact hbc.1
    · exact hrest c' hc'

lemma autoStep_inv (box : Box) (S : List ℕ) :
    ∀ (cs : List ℕ) (acc : Option AutoSt),
      (∀ a, acc = some a →
        a.2.2.2.1 ∈ S ∧ bestForCount box a.2.2.2.1 = some a.1) →
      (∀ c ∈ cs, c ∈ S) →
      ∀ b, cs.foldl (autoStep box) acc = some b →
        b.2.2.2.1 ∈ S ∧ bestForCount box b.2.2.2.1 = some b.1 := by
  intro cs
  induction cs with
  | nil =>
    intro acc hacc _ b h
    exact hacc b h
  | cons c rest ih =>
    intro acc hacc hcs b h
    rw [List.foldl_cons] at h
    refine ih (autoStep box acc c) ?_ (fun x hx => hcs x (List.mem_cons_of_mem _ hx)) b h
    intro a ha
    unfold autoStep at ha
    cases hb : bestForCount box c with
    | none =>
      rw [hb] at ha
      exact hacc a ha
    | some g =>
      rw [hb] at ha
      dsimp only at ha
      cases hacc' : acc with
      | none =>
        rw [hacc'] at ha
        dsimp only at ha
        injection ha with ha2
        subst ha2
        exact ⟨hcs c (List.mem_cons_self _ _), hb⟩
      | some prev =>
        rw [hacc'] at ha
        dsimp only at ha
        by_cases hsc : (1 - symEff (calculate_arrangement_area g box)) * 1000 -
            (c : ℚ) < prev.2.2.2.2
        · rw [if_pos hsc] at ha
          injection ha with ha2
          subst ha2
          exact ⟨hcs c (List.mem_cons_self _ _), hb⟩
        · rw [if_neg hsc] at ha
          injection ha with ha2
          subst ha2
          exact hacc prev hacc'

/-- Claim C7: `auto_optimize_box_count` sweeps exactly the integer range
`[max(1, theoretical_max / 4), min(theoretical_max * 2, 100)]` with
`theoretical_max = floor(pallet_area / box_area)`; every per-count search and
the returned pallet use only the standard pallet; and when no count in the
sweep yields an arrangement the function raises instead of returning a value
(modelled: a returned result carries a successful per-count search for its
swept count, so by contraposition total failure forces `none`, and `none`
conversely implies every swept count failed). -/
theorem auto_optimize_box_count_spec (box : Box) (hw : 0 < box.width)
    (hl : 0 < box.length) :
    theoreticalMax box = ⌊(PALLET_WIDTH * PALLET_LENGTH) / box.area⌋ ∧
    (∀ c : ℕ, c ∈ sweepList box ↔
      (max 1 (Int.fdiv (theoreticalMax box) 4) ≤ (c : ℤ) ∧
        (c : ℤ) ≤ min (theoreticalMax box * 2) 100)) ∧
    match auto_optimize_box_count box with
    | none => ∀ c ∈ sweepList box, bestForCount box c = none
    | some res => res.2.2.2.2 = standardPallet ∧ res.2.2.2.1 ∈ sweepList box ∧
        bestForCount box res.2.2.2.1 = some res.1 := by
  have harea : 0 < box.area := mul_pos hw hl
  have hconst : (0 : ℚ) < PALLET_WIDTH * PALLET_LENGTH := by
    unfold PALLET_WIDTH PALLET_LENGTH
    norm_num
  have hq : 0 ≤ (PALLET_WIDTH * PALLET_LENGTH) / box.area :=
    le_of_lt (div_pos hconst harea)
  refine ⟨?_, ?_, ?_⟩
  · unfold theoreticalMax pyInt
    rw [if_neg (not_lt.2 hq)]
    rfl
  · intro c
    unfold sweepList
    constructor
    · intro hc
      rcases List.mem_map.1 hc with ⟨i, hi, rfl⟩
      have hi' := List.mem_range.1 hi
      have hlo : (1 : ℤ) ≤ sweepLo box := le_max_left _ _
      unfold sweepLo sweepHi at *
      omega
    · intro ⟨h1, h2⟩
      apply List.mem_map.2
      have hlo : (1 : ℤ) ≤ sweepLo box := le_max_left _ _
      refine ⟨c - (sweepLo box).toNat, List.mem_range.2 ?_, ?_⟩
      · unfold sweepLo sweepHi at *
        omega
      · unfold sweepLo at *
        omega
  · unfold auto_optimize_box_count
    cases hf : (sweepList box).foldl (autoStep box) none with
    | none =>
      exact (autoStep_none box (sweepList box) none hf).2
    | some b =>
      rcases autoStep_inv box (sweepList box) (sweepList box) none
        (by intro a ha; cases ha) (fun c hc => hc) b hf with ⟨hmem, hbest⟩
      exact ⟨rfl, hmem, hbest⟩

/-- Witness for **C7** at a concrete box with positive dimensions. -/
theorem auto_optimize_box_count_spec_witness :
    theoreticalMax ⟨30, 40⟩ = ⌊(PALLET_WIDTH * PALLET_LENGTH) / Box.area ⟨30, 40⟩⌋ ∧
    (∀ c : ℕ, c ∈ sweepList ⟨30, 40⟩ ↔
      (max 1 (Int.fdiv (theoreticalMax ⟨30, 40⟩) 4) ≤ (c : ℤ) ∧
        (c : ℤ) ≤ min (theoreticalMax ⟨30, 40⟩ * 2) 100)) ∧
    match auto_optimize_box_count ⟨30, 40⟩ with
    | none => ∀ c ∈ sweepList ⟨30, 40⟩, bestForCount ⟨30, 40⟩ c = none
    | some res => res.2.2.2.2 = standardPallet ∧
        res.2.2.2.1 ∈ sweepList ⟨30, 40⟩ ∧
        bestForCount ⟨30, 40⟩ res.2.2.2.1 = some res.1 :=
  auto_optimize_box_count_spec ⟨30, 40⟩ (by norm_num) (by norm_num)

/-- Claim C9: `arrangement_fits_in_pallet` is deterministic and side-effect
free: a call leaves the grid, box and pallet unchanged, and a second call on
the post-call state returns the identical result and state. -/
theorem fits_deterministic_pure (g : Grid) (box : Box) (p : Pallet) :
    (fitsCall g box p).2 = (g, box, p) ∧
    fitsCall (fitsCall g box p).2.1 (fitsCall g box p).2.2.1
        (fitsCall g box p).2.2.2 = fitsCall g box p :=
  ⟨rfl, rfl⟩

end BoxPacker
